import Mathlib

/-
Shallow embedding of the StateQuark reactive state-container library
(src/src/statequark/core.py, config.py), together with a model of the
batch coordinator described in the specification (which has no
implementation under src/).

Modelling conventions:
  * Python cell objects live on a heap; here a `World` carries the list of
    all cells, keyed by the process-unique integer id that
    `Quark.__init__` draws from the global instance counter.
  * Values are `Int` (the claims only exercise integer-valued cells).
  * The Python code raises `ValueError` at three distinct sites with three
    distinct messages; the specification names these sites
    `ConfigurationError` (bad construction arguments), `InvalidOperation`
    (writing a derived cell) and `ComputeError` (derivation function
    raised).  `QErr` labels each raise site with the spec taxonomy.
  * A derived cell's getter (`self._getter`, an arbitrary callable taking
    the `get` accessor of `Quark._compute`) is embedded as a small
    expression language `GExpr`: constants, dependency reads via `get`,
    arithmetic, and an always-raising function.
  * Subscriber callbacks (`self._callbacks`) are either user callbacks —
    identified by a numeric id (Python compares callbacks by reference in
    `subscribe`/`unsubscribe`), observing the cell's current value and
    possibly raising — or the internal `_on_dep_change` handler that a
    derived cell registers on each dependency at construction.
  * Side effects of notification are recorded in an append-only event
    `log` (callback invocations, callback exceptions caught by
    `_safe_call`, error-handler runs and error-handler exceptions).
  * `_notify_sync` recursion through `_on_dep_change` is fueled: one unit
    of fuel per delivered callback.  Python would loop forever on a cyclic
    subscription graph; with enough fuel the fueled model agrees with the
    code on every terminating (DAG) run.
  * Locks (`self._lock`) serialize the operations modelled here; the model
    is the sequential semantics those locks guarantee per cell.
-/

namespace StateQuark

/-- Error taxonomy of the specification, mapped onto the three `ValueError`
raise sites of the Python code (see the conventions comment above). -/
inductive QErr where
  | configurationError
  | invalidOperation
  | computeError
deriving DecidableEq, Repr

/-- Model of a per-cell error handler (`self._error_handler`): the only
behaviour the embedding needs is whether the handler itself raises when
invoked by `_safe_call`. -/
structure EH where
  raisesOnCall : Bool
deriving DecidableEq, Repr

/-- A subscriber callback: a user callback (identified by reference id,
optionally raising when invoked) or the internal `_on_dep_change` handler
of the derived cell `ownerId`. -/
inductive CB where
  | user (uid : Nat) (raises : Bool)
  | depChange (ownerId : Nat)
deriving DecidableEq, Repr

/-- Observable events of a run, recorded in `World.log`. -/
inductive Event where
  | invoked (uid : Nat) (observed : Int)
  | cbRaised (uid : Nat)
  | handlerOk (cellId : Nat) (uid : Nat)
  | handlerRaised (cellId : Nat) (uid : Nat)
deriving DecidableEq, Repr

/-- Embedding of a derived cell's getter function: the callable receives
the `get` accessor (read a dependency cell's current value) and returns a
value or raises — unconditionally (`raiseErr`) or on particular dependency
values (`div`, raising on a zero divisor as Python division does; the
rounding convention plays no role, no claim inspects a quotient). -/
inductive GExpr where
  | const (v : Int)
  | get (depId : Nat)
  | add (a b : GExpr)
  | mul (a b : GExpr)
  | div (a b : GExpr)
  | raiseErr
deriving DecidableEq, Repr

/-- One cell (`class Quark`): slots `_id`, `_getter`, `_deps`, `_value`,
`_callbacks`, `_error_handler`.  `getter = none` is a source cell,
`getter = some g` a derived cell. -/
structure Quark where
  id : Nat
  getter : Option GExpr
  deps : List Nat
  val : Int
  callbacks : List CB
  errorHandler : Option EH
deriving DecidableEq, Repr

/-- The heap of all cells plus the global instance counter
(`Quark._instance_counter`), the observable event log, and the batch
coordinator state described by spec §4.4 (`batching` flag and pending
set). -/
structure World where
  cells : List Quark
  nextId : Nat
  log : List Event
  batching : Bool
  pending : List Nat
deriving DecidableEq, Repr

def emptyWorld : World := ⟨[], 0, [], false, []⟩

instance : Inhabited World := ⟨emptyWorld⟩

/-- Look a cell up by id (dereferencing an object reference in Python). -/
def findCell (w : World) (i : Nat) : Option Quark :=
  w.cells.find? (fun c => c.id == i)

def callbacksOf (w : World) (i : Nat) : List CB :=
  match findCell w i with
  | some c => c.callbacks
  | none => []

def errorHandlerOf (w : World) (i : Nat) : Option EH :=
  match findCell w i with
  | some c => c.errorHandler
  | none => none

/-- Replace the cell with id `i` by `f` applied to it (an attribute
mutation on the Python object). -/
def updateCell (w : World) (i : Nat) (f : Quark → Quark) : World :=
  { w with cells := w.cells.map (fun c => if c.id == i then f c else c) }

def pushLog (w : World) (e : Event) : World :=
  { w with log := w.log ++ [e] }

instance {ε α : Type} [DecidableEq ε] [DecidableEq α] :
    DecidableEq (Except ε α) := fun x y =>
  match x, y with
  | .ok a, .ok b =>
    if h : a = b then isTrue (by rw [h])
    else isFalse (fun hc => by cases hc; exact h rfl)
  | .error a, .error b =>
    if h : a = b then isTrue (by rw [h])
    else isFalse (fun hc => by cases hc; exact h rfl)
  | .ok _, .error _ => isFalse (fun hc => by cases hc)
  | .error _, .ok _ => isFalse (fun hc => by cases hc)

/-- Evaluate a getter expression against the current world, exactly as
`Quark._compute` runs the getter with `get(dep) = dep.value`: `get` on a
source cell returns its stored value, `get` on a derived cell recomputes.
Recursion is fueled (one unit per evaluation step; Python recurses
unboundedly, so with enough fuel this agrees with every terminating run).
`raiseErr` models the getter raising: `_compute` logs and re-raises, which
the spec calls `ComputeError`. -/
def evalG : Nat → World → GExpr → Except QErr Int
  | _, _, .const v => .ok v
  | _, _, .raiseErr => .error .computeError
  | 0, _, _ => .error .computeError
  | f + 1, w, .add a b =>
    (evalG f w a).bind fun x => (evalG f w b).map fun y => x + y
  | f + 1, w, .mul a b =>
    (evalG f w a).bind fun x => (evalG f w b).map fun y => x * y
  | f + 1, w, .div a b =>
    (evalG f w a).bind fun x => (evalG f w b).bind fun y =>
      if y = 0 then .error .computeError else .ok (x / y)
  | f + 1, w, .get i =>
    match findCell w i with
    | none => .error .computeError
    | some c =>
      match c.getter with
      | none => .ok c.val
      | some g2 => evalG f w g2

/-- Read a cell (`Quark.value` property): a source cell returns the stored
`_value`; a derived cell re-invokes its getter against the current
dependency values (`Quark._compute`), propagating any error to the
caller. -/
def readQ (fuel : Nat) (w : World) (i : Nat) : Except QErr Int :=
  match findCell w i with
  | none => .error .computeError
  | some c =>
    match c.getter with
    | none => .ok c.val
    | some g => evalG fuel w g

/-- Effect of a raised callback inside `Quark._safe_call`: the exception is
caught and logged; if a per-cell error handler is installed it is invoked,
and an exception raised by the handler itself is caught and logged in
turn.  Nothing propagates. -/
def afterRaise (w : World) (selfId : Nat) (uid : Nat) : World :=
  let w1 := pushLog w (.cbRaised uid)
  match errorHandlerOf w selfId with
  | none => w1
  | some eh =>
    if eh.raisesOnCall then pushLog w1 (.handlerRaised selfId uid)
    else pushLog w1 (.handlerOk selfId uid)

/-- Run one user callback under `Quark._safe_call`: the callback receives
the notifying cell and observes its current value (`q.value`); if reading
the value raises, or the callback itself raises, `_safe_call` catches the
exception (`afterRaise`).  Always returns normally. -/
def safeCallUser (fuel : Nat) (w : World) (selfId : Nat) (uid : Nat)
    (raises : Bool) : World :=
  match readQ fuel w selfId with
  | .error _ => afterRaise w selfId uid
  | .ok v =>
    if raises then afterRaise w selfId uid
    else pushLog w (.invoked uid v)

/-- Deliver a snapshot list of callbacks for cell `selfId`
(`Quark._notify_sync` iterating `callbacks_copy` through `_safe_call`).
A `depChange` entry runs `_on_dep_change`, which re-notifies the owning
derived cell's own subscribers (snapshotting them at that moment).  One
unit of fuel is spent per delivered callback. -/
def notifyGo (fuel : Nat) (w : World) (selfId : Nat) (cbs : List CB) : World :=
  match fuel, cbs with
  | _, [] => w
  | 0, _ => w
  | f + 1, cb :: rest =>
    match cb with
    | .user uid r => notifyGo f (safeCallUser (f + 1) w selfId uid r) selfId rest
    | .depChange owner =>
      notifyGo f (notifyGo f w owner (callbacksOf w owner)) selfId rest

/-- `Quark._notify_sync`: snapshot the subscriber list, then deliver. -/
def notifySync (fuel : Nat) (w : World) (i : Nat) : World :=
  notifyGo fuel w i (callbacksOf w i)

/-- `Quark.set`: on a derived cell raise (`InvalidOperation`, before any
mutation, so the failed call leaves the world unchanged — the caller keeps
`w`); on a source cell store the new value, then notify synchronously.
The value is never compared with the old one: notification is
unconditional.  A missing cell is unreachable in Python (the caller holds
a live reference). -/
def setQ (fuel : Nat) (w : World) (i : Nat) (v : Int) : Except QErr World :=
  match findCell w i with
  | none => .ok w
  | some c =>
    if c.getter.isSome then .error .invalidOperation
    else .ok (notifySync fuel (updateCell w i (fun q => { q with val := v })) i)

/-- `Quark.set_async`: same guard and mutation as `set`; the callbacks are
dispatched to the shared executor and joined (`asyncio.gather`), which for
the per-callback isolation and completion semantics modelled here is the
same sequential delivery over the snapshot. -/
def setAsyncQ (fuel : Nat) (w : World) (i : Nat) (v : Int) : Except QErr World :=
  match findCell w i with
  | none => .ok w
  | some c =>
    if c.getter.isSome then .error .invalidOperation
    else .ok (notifySync fuel (updateCell w i (fun q => { q with val := v })) i)

/-- `Quark.subscribe`: append the callback unless an equal (by reference)
callback is already present.  No notification fires. -/
def subscribeQ (w : World) (i : Nat) (cb : CB) : World :=
  updateCell w i (fun q =>
    if cb ∈ q.callbacks then q
    else { q with callbacks := q.callbacks ++ [cb] })

/-- `Quark.unsubscribe`: remove the callback if present (first occurrence,
as Python `list.remove`); a no-op otherwise.  Never raises. -/
def unsubscribeQ (w : World) (i : Nat) (cb : CB) : World :=
  updateCell w i (fun q => { q with callbacks := q.callbacks.erase cb })

/-- `Quark.__init__` with a non-callable argument: allocate a fresh id from
the global counter and store the initial value.  Returns the new world and
the new cell's id. -/
def mkSource (w : World) (v : Int) (eh : Option EH) : World × Nat :=
  let i := w.nextId + 1
  ({ w with
      nextId := i
      cells := w.cells ++ [⟨i, none, [], v, [], eh⟩] }, i)

/-- `Quark.__init__` with a callable argument: an empty or absent
dependency list raises (`ConfigurationError`); otherwise the initial value
is computed eagerly (`self._value = self._compute()`, so an error from the
getter propagates out of the constructor), and then the new cell's
`_on_dep_change` handler is subscribed to every dependency. -/
def mkDerived (fuel : Nat) (w : World) (g : GExpr) (deps : List Nat)
    (eh : Option EH) : Except QErr (World × Nat) :=
  if deps.isEmpty then .error .configurationError
  else
    match evalG fuel w g with
    | .error e => .error e
    | .ok v0 =>
      let i := w.nextId + 1
      let w1 : World :=
        { w with
            nextId := i
            cells := w.cells ++ [⟨i, some g, deps, v0, [], eh⟩] }
      .ok (deps.foldl (fun acc d => subscribeQ acc d (.depChange i)) w1, i)

/-- `StateQuarkConfig` (config.py), with the fields the validation and the
claims touch; the thread-name string field is omitted as it is never
validated nor read by the core. -/
structure StateQuarkConfig where
  debug : Bool
  max_workers : Int
  auto_cleanup : Bool
deriving DecidableEq, Repr

/-- `StateQuarkConfig.__post_init__`: validates `max_workers` at
construction time — below 1 or above 32 raises (`ConfigurationError` in
the spec taxonomy). -/
def mkStateQuarkConfig (debug : Bool) (mw : Int) (auto_cleanup : Bool) :
    Except QErr StateQuarkConfig :=
  if mw < 1 then .error .configurationError
  else if mw > 32 then .error .configurationError
  else .ok ⟨debug, mw, auto_cleanup⟩

/-- Modelled from the spec: the repository has no batch coordinator under
src/; spec §4.4 specifies one.  Enter scope: mark the calling thread as
batching active. -/
def batchEnter (w : World) : World := { w with batching := true }

/-- Modelled from the spec: within a batch scope a write still mutates the
value immediately, but instead of notifying, the cell registers itself
(keyed by cell id, last-write-wins for the value, first-add order kept)
into the pending set; outside a scope the write notifies as usual.
Writing a derived cell fails with `InvalidOperation` as for `set`. -/
def batchWrite (fuel : Nat) (w : World) (i : Nat) (v : Int) :
    Except QErr World :=
  match findCell w i with
  | none => .ok w
  | some c =>
    if c.getter.isSome then .error .invalidOperation
    else
      let w1 := updateCell w i (fun q => { q with val := v })
      if w1.batching then
        .ok (if i ∈ w1.pending then w1
             else { w1 with pending := w1.pending ++ [i] })
      else .ok (notifySync fuel w1 i)

/-- Modelled from the spec: exit of a batch scope — the batching flag is
cleared and the pending set is drained, firing each affected cell's
synchronous notification exactly once, in first-added order. -/
def batchExit (fuel : Nat) (w : World) : World :=
  let ps := w.pending
  let w1 : World := { w with batching := false, pending := [] }
  ps.foldl (fun acc i => notifySync fuel acc i) w1



/-
Concrete scenario worlds used by the claims and their witnesses.
-/


/-- Scenario: a single source cell (id 1) holding `a`. -/
def srcWorld (a : Int) : World := (mkSource emptyWorld a none).1

/-- Scenario: source A (id 1) holding `a` with derived D = A*2 (id 2). -/
def derWorld (a : Int) : World :=
  match mkDerived 9 (srcWorld a) (.mul (.get 1) (.const 2)) [1] none with
  | .ok p => p.1
  | .error _ => emptyWorld

/-- Scenario: chain A (id 1) with B = A*2 (id 2) and C = B*2 (id 3). -/
def chainWorld (a : Int) : World :=
  match mkDerived 9 (derWorld a) (.mul (.get 2) (.const 2)) [2] none with
  | .ok p => p.1
  | .error _ => emptyWorld

/-- Scenario: source A (id 1) = 1 with derived D = 1 / A (id 2); the derivation raises once A is set to 0. -/
def divWorld : World :=
  match mkDerived 9 (srcWorld 1) (.div (.const 1) (.get 1)) [1] none with
  | .ok p => p.1
  | .error _ => emptyWorld

/-- Scenario: `divWorld` after writing 0 to A. -/
def divWorldAfter : World :=
  match setQ 9 divWorld 1 0 with
  | .ok w => w
  | .error _ => emptyWorld

-- claims batch 1 ------------------------------------------------------------

/-- Scenario: a source cell with subscribers good1 (uid 1), bad (uid 2, raising), good2 (uid 3). -/
def threeSubWorld : World :=
  subscribeQ (subscribeQ (subscribeQ (srcWorld 0) 1 (.user 1 false))
    1 (.user 2 true)) 1 (.user 3 false)

/-- Scenario: a source cell (id 1, value 5) with one subscriber (uid 9). -/
def oneSubWorld : World := subscribeQ (srcWorld 5) 1 (.user 9 false)

/-- Scenario: a source cell whose error handler raises, with a raising subscriber (uid 4) and a well-behaved one (uid 5). -/
def handlerWorld : World :=
  subscribeQ (subscribeQ (mkSource emptyWorld 0 (some ⟨true⟩)).1
    1 (.user 4 true)) 1 (.user 5 false)

/-
General lemmas about the embedding, shared by the claim theorems below.
-/


theorem findCell_cells_eq {w' w : World} (h : w'.cells = w.cells) (i : Nat) :
    findCell w' i = findCell w i := by
  unfold findCell; rw [h]

theorem pushLog_cells (w : World) (e : Event) : (pushLog w e).cells = w.cells := rfl

theorem afterRaise_cells (w : World) (i u : Nat) :
    (afterRaise w i u).cells = w.cells := by
  unfold afterRaise
  cases errorHandlerOf w i with
  | none => rfl
  | some eh => obtain ⟨b⟩ := eh; cases b <;> simp [pushLog]

theorem safeCallUser_cells (f : Nat) (w : World) (i u : Nat) (r : Bool) :
    (safeCallUser f w i u r).cells = w.cells := by
  unfold safeCallUser
  cases readQ f w i with
  | error e => exact afterRaise_cells w i u
  | ok v => cases r <;> simp [afterRaise_cells, pushLog]

theorem notifyGo_cells (f : Nat) :
    ∀ (w : World) (i : Nat) (cbs : List CB), (notifyGo f w i cbs).cells = w.cells := by
  induction f with
  | zero => intro w i cbs; cases cbs <;> rfl
  | succ f ih =>
    intro w i cbs
    cases cbs with
    | nil => rfl
    | cons cb rest =>
      cases cb with
      | user uid r =>
        rw [notifyGo, ih, safeCallUser_cells]
      | depChange o =>
        rw [notifyGo, ih, ih]

theorem afterRaise_log (w : World) (i u : Nat) :
    ∃ t, (afterRaise w i u).log = w.log ++ t := by
  unfold afterRaise
  cases errorHandlerOf w i with
  | none => exact ⟨_, rfl⟩
  | some eh => obtain ⟨b⟩ := eh; cases b <;> simp [pushLog]

theorem safeCallUser_log (f : Nat) (w : World) (i u : Nat) (r : Bool) :
    ∃ t, (safeCallUser f w i u r).log = w.log ++ t := by
  unfold safeCallUser
  cases readQ f w i with
  | error e => exact afterRaise_log w i u
  | ok v =>
    cases r
    · exact ⟨_, rfl⟩
    · exact afterRaise_log w i u

theorem notifyGo_log (f : Nat) :
    ∀ (w : World) (i : Nat) (cbs : List CB),
      ∃ t, (notifyGo f w i cbs).log = w.log ++ t := by
  induction f with
  | zero => intro w i cbs; cases cbs <;> exact ⟨[], by simp [notifyGo]⟩
  | succ f ih =>
    intro w i cbs
    cases cbs with
    | nil => exact ⟨[], by simp [notifyGo]⟩
    | cons cb rest =>
      cases cb with
      | user uid r =>
        rw [notifyGo]
        obtain ⟨t1, h1⟩ := safeCallUser_log (f+1) w i uid r
        obtain ⟨t2, h2⟩ := ih (safeCallUser (f+1) w i uid r) i rest
        exact ⟨t1 ++ t2, by rw [h2, h1, List.append_assoc]⟩
      | depChange o =>
        rw [notifyGo]
        obtain ⟨t1, h1⟩ := ih w o (callbacksOf w o)
        obtain ⟨t2, h2⟩ := ih (notifyGo f w o (callbacksOf w o)) i rest
        exact ⟨t1 ++ t2, by rw [h2, h1, List.append_assoc]⟩

theorem readQ_source (f : Nat) (w : World) (i : Nat) (c : Quark)
    (hf : findCell w i = some c) (hg : c.getter = none) :
    readQ f w i = .ok c.val := by
  simp [readQ, hf, hg]

theorem find_map_update (i : Nat) (f : Quark → Quark)
    (hid : ∀ q, (f q).id = q.id) :
    ∀ (l : List Quark) (c : Quark),
      l.find? (fun c => c.id == i) = some c →
      (l.map (fun c => if c.id == i then f c else c)).find?
          (fun c => c.id == i) = some (f c) := by
  intro l
  induction l with
  | nil => intro c hc; simp at hc
  | cons h t ih =>
    intro c hc
    cases hh : (h.id == i) with
    | true =>
      simp only [List.find?_cons, hh] at hc
      injection hc with hc
      subst hc
      have h2 : ((f h).id == i) = true := by rw [hid]; exact hh
      simp only [List.map_cons, if_pos hh, List.find?_cons, h2]
    | false =>
      simp only [List.find?_cons, hh] at hc
      simp only [List.map_cons, List.find?_cons, hh, Bool.false_eq_true,
        if_false]
      exact ih c hc

theorem findCell_update (w : World) (i : Nat) (f : Quark → Quark) (c : Quark)
    (hid : ∀ q, (f q).id = q.id) (hf : findCell w i = some c) :
    findCell (updateCell w i f) i = some (f c) :=
  find_map_update i f hid w.cells c hf

theorem updateCell_log (w : World) (i : Nat) (f : Quark → Quark) :
    (updateCell w i f).log = w.log := rfl

theorem notifyGo_good (uids : List Nat) :
    ∀ (fuel : Nat) (w : World) (i : Nat) (c : Quark),
      findCell w i = some c → c.getter = none → uids.length ≤ fuel →
      notifyGo fuel w i (uids.map fun u => CB.user u false) =
        { w with log := w.log ++ uids.map fun u => Event.invoked u c.val } := by
  induction uids with
  | nil =>
    intro fuel w i c hf hg hlen
    cases fuel <;> simp [notifyGo]
  | cons u rest ih =>
    intro fuel w i c hf hg hlen
    cases fuel with
    | zero => simp at hlen
    | succ f =>
      have hs : safeCallUser (f + 1) w i u false =
          pushLog w (.invoked u c.val) := by
        simp [safeCallUser, readQ_source (f + 1) w i c hf hg]
      rw [List.map_cons, notifyGo, hs]
      have hf' : findCell (pushLog w (.invoked u c.val)) i = some c := hf
      rw [ih f _ i c hf' hg (by simpa using Nat.le_of_succ_le_succ hlen)]
      simp [pushLog]

theorem notifyGo_mem (cbs : List CB) :
    ∀ (fuel : Nat) (w : World) (i : Nat) (c : Quark) (uid : Nat),
      findCell w i = some c → c.getter = none → cbs.length ≤ fuel →
      CB.user uid false ∈ cbs →
      Event.invoked uid c.val ∈ (notifyGo fuel w i cbs).log := by
  induction cbs with
  | nil => intro _ _ _ _ _ _ _ _ hmem; simp at hmem
  | cons cb rest ih =>
    intro fuel w i c uid hf hg hlen hmem
    cases fuel with
    | zero => simp at hlen
    | succ f =>
      rcases List.mem_cons.mp hmem with heq | hrest
      · cases heq
        have hs : safeCallUser (f + 1) w i uid false =
            pushLog w (.invoked uid c.val) := by
          simp [safeCallUser, readQ_source (f + 1) w i c hf hg]
        rw [notifyGo, hs]
        obtain ⟨t, ht⟩ := notifyGo_log f (pushLog w (.invoked uid c.val)) i rest
        rw [ht]
        simp [pushLog]
      · cases cb with
        | user u r =>
          rw [notifyGo]
          refine ih f _ i c uid ?_ hg
            (by simpa using Nat.le_of_succ_le_succ hlen) hrest
          rw [findCell_cells_eq (safeCallUser_cells (f + 1) w i u r) i]
          exact hf
        | depChange o =>
          rw [notifyGo]
          refine ih f _ i c uid ?_ hg
            (by simpa using Nat.le_of_succ_le_succ hlen) hrest
          rw [findCell_cells_eq (notifyGo_cells f w o (callbacksOf w o)) i]
          exact hf

theorem updateCell_fix (w : World) (i : Nat) (f : Quark → Quark)
    (h : ∀ c ∈ w.cells, c.id = i → f c = c) : updateCell w i f = w := by
  have hl : ∀ (l : List Quark), (∀ c ∈ l, c.id = i → f c = c) →
      l.map (fun c => if c.id == i then f c else c) = l := by
    intro l
    induction l with
    | nil => intro _; rfl
    | cons a t iht =>
      intro hh
      simp only [List.map_cons]
      by_cases ha : (a.id == i) = true
      · rw [if_pos ha, hh a (List.mem_cons_self a t) (by simpa using ha),
          iht (fun c hc => hh c (List.mem_cons_of_mem a hc))]
      · rw [if_neg ha, iht (fun c hc => hh c (List.mem_cons_of_mem a hc))]
  show { w with cells := _ } = w
  rw [hl w.cells h]

theorem updateCell_comp (w : World) (i : Nat) (f g : Quark → Quark)
    (hid : ∀ q, (f q).id = q.id) :
    updateCell (updateCell w i f) i g = updateCell w i (fun c => g (f c)) := by
  simp only [updateCell, List.map_map]
  congr 1
  apply List.map_congr_left
  intro c _
  cases hcc : (c.id == i) with
  | true => simp [Function.comp, hcc, hid]
  | false => simp [Function.comp, hcc]

theorem subscribeQ_idem (w : World) (i : Nat) (cb : CB) :
    subscribeQ (subscribeQ w i cb) i cb = subscribeQ w i cb := by
  simp only [subscribeQ]
  rw [updateCell_comp w i _ _ (by intro q; by_cases h : cb ∈ q.callbacks <;> simp [h])]
  congr 1
  funext c
  by_cases h : cb ∈ c.callbacks
  · simp [h]
  · simp [h]

-- scenario defs -------------------------------------------------------------

theorem exbind_ok {ε α β : Type} (x : α) (k : α → Except ε β) :
    (Except.ok x : Except ε α).bind k = k x := rfl

theorem exmap_ok {ε α β : Type} (x : α) (f : α → β) :
    Except.map f (.ok x : Except ε α) = .ok (f x) := rfl

theorem batchWrite_active (fuel : Nat) (w : World) (i : Nat) (c : Quark)
    (v : Int) (hf : findCell w i = some c) (hg : c.getter.isSome = false)
    (hb : w.batching = true) :
    batchWrite fuel w i v =
      .ok (if i ∈ w.pending
           then updateCell w i (fun q => { q with val := v })
           else { updateCell w i (fun q => { q with val := v }) with
                  pending := w.pending ++ [i] }) := by
  simp [batchWrite, hf, hg, updateCell, hb]

theorem batchExit_single (fuel : Nat) (w : World) (i : Nat)
    (hpend : w.pending = [i]) :
    batchExit fuel w =
      notifySync fuel { w with batching := false, pending := [] } i := by
  simp [batchExit, hpend]

/-
The claim theorems.
-/


/-- Claim C1: performing several writes (values v1, v2, v3) to a source cell X inside one batch scope results in each subscriber of X being notified exactly once, after the scope exits, observing the final value v3 — not once per write. The batch coordinator is modelled from spec section 4.4, since no implementation of it exists under src/. -/
theorem claim_C1_batch_scope_coalesces (fuel : Nat) (w : World) (i : Nat)
    (c : Quark) (uids : List Nat) (v1 v2 v3 : Int)
    (hf : findCell w i = some c) (hg : c.getter = none)
    (hcb : c.callbacks = uids.map fun u => CB.user u false)
    (hp : w.pending = []) (hlen : uids.length ≤ fuel) :
    ∃ w', ((batchWrite fuel (batchEnter w) i v1).bind fun wa =>
           (batchWrite fuel wa i v2).bind fun wb =>
           (batchWrite fuel wb i v3).map fun wc => batchExit fuel wc) =
        .ok w' ∧
      w'.log = w.log ++ (uids.map fun u => Event.invoked u v3) ∧
      readQ fuel w' i = .ok v3 := by
  have hgs : c.getter.isSome = false := by rw [hg]; rfl
  obtain ⟨wA, h1, hfA, hbA, hpA, hlA⟩ :
      ∃ wA, batchWrite fuel (batchEnter w) i v1 = .ok wA ∧
        findCell wA i = some { c with val := v1 } ∧ wA.batching = true ∧
        wA.pending = [i] ∧ wA.log = w.log := by
    refine ⟨{ updateCell (batchEnter w) i (fun q => { q with val := v1 }) with
              pending := [i] }, ?_, ?_, rfl, rfl, rfl⟩
    · rw [batchWrite_active fuel (batchEnter w) i c v1 hf hgs rfl,
        if_neg (by simp [batchEnter, hp])]
      simp [batchEnter, hp]
    · exact findCell_update (batchEnter w) i (fun q => { q with val := v1 })
        c (fun q => rfl) hf
  obtain ⟨wB, h2, hfB, hbB, hpB, hlB⟩ :
      ∃ wB, batchWrite fuel wA i v2 = .ok wB ∧
        findCell wB i = some { c with val := v2 } ∧ wB.batching = true ∧
        wB.pending = [i] ∧ wB.log = w.log := by
    refine ⟨updateCell wA i (fun q => { q with val := v2 }), ?_, ?_,
      hbA, hpA, hlA⟩
    · rw [batchWrite_active fuel wA i { c with val := v1 } v2 hfA hgs hbA,
        if_pos (by rw [hpA]; exact List.mem_singleton.mpr rfl)]
    · exact findCell_update wA i (fun q => { q with val := v2 })
        { c with val := v1 } (fun q => rfl) hfA
  obtain ⟨wC, h3, hfC, hpC, hlC⟩ :
      ∃ wC, batchWrite fuel wB i v3 = .ok wC ∧
        findCell wC i = some { c with val := v3 } ∧
        wC.pending = [i] ∧ wC.log = w.log := by
    refine ⟨updateCell wB i (fun q => { q with val := v3 }), ?_, ?_,
      hpB, hlB⟩
    · rw [batchWrite_active fuel wB i { c with val := v2 } v3 hfB hgs hbB,
        if_pos (by rw [hpB]; exact List.mem_singleton.mpr rfl)]
    · exact findCell_update wB i (fun q => { q with val := v3 })
        { c with val := v2 } (fun q => rfl) hfB
  have hexit := batchExit_single fuel wC i hpC
  have hfD : findCell { wC with batching := false, pending := [] } i =
      some { c with val := v3 } := hfC
  have hcbsD : callbacksOf { wC with batching := false, pending := [] } i =
      uids.map fun u => CB.user u false := by
    simp [callbacksOf, hfD, hcb]
  have hnot : notifySync fuel { wC with batching := false, pending := [] } i =
      { { wC with batching := false, pending := [] } with
        log := wC.log ++ uids.map fun u => Event.invoked u v3 } := by
    rw [notifySync, hcbsD]
    exact notifyGo_good uids fuel _ i { c with val := v3 } hfD hg hlen
  refine ⟨{ { wC with batching := false, pending := [] } with
            log := wC.log ++ uids.map fun u => Event.invoked u v3 },
    ?_, ?_, ?_⟩
  · rw [h1, exbind_ok, h2, exbind_ok, h3, exmap_ok, hexit, hnot]
  · show wC.log ++ (uids.map fun u => Event.invoked u v3) =
      w.log ++ (uids.map fun u => Event.invoked u v3)
    rw [hlC]
  · exact readQ_source fuel _ i { c with val := v3 } hfC hg

/-- Witness for claim C1 at a concrete world: one subscriber (uid 9), writes 1, 2, 3; the log gains exactly one invocation, observing 3. -/
theorem claim_C1_batch_scope_coalesces_witness :
    ∃ w', ((batchWrite 2 (batchEnter oneSubWorld) 1 1).bind fun wa =>
           (batchWrite 2 wa 1 2).bind fun wb =>
           (batchWrite 2 wb 1 3).map fun wc => batchExit 2 wc) = .ok w' ∧
      w'.log = oneSubWorld.log ++ [Event.invoked 9 3] ∧
      readQ 2 w' 1 = .ok 3 :=
  claim_C1_batch_scope_coalesces 2 oneSubWorld 1
    ⟨1, none, [], 5, [.user 9 false], none⟩ [9] 1 2 3
    (by decide) (by decide) (by decide) (by decide) (by decide)

/-- Claim C2: a derived cell read always returns its function applied to the current dependency values: with source A = a and derived D = A*2, D reads a*2; after writing a-prime to A, D reads 2 times a-prime; and through the chain A, B = A*2, C = B*2, writing a-prime to A makes B read 2 times a-prime and C read 4 times a-prime (for 3: 6 and 12). -/
theorem claim_C2_derived_read_current (a a' : Int) :
    readQ 9 (derWorld a) 2 = .ok (a * 2) ∧
    ((setQ 9 (derWorld a) 1 a').bind fun w => readQ 9 w 2) = .ok (a' * 2) ∧
    ((setQ 9 (chainWorld a) 1 a').bind fun w => readQ 9 w 2) = .ok (a' * 2) ∧
    ((setQ 9 (chainWorld a) 1 a').bind fun w => readQ 9 w 3) = .ok (a' * 2 * 2) :=
  ⟨rfl, rfl, rfl, rfl⟩

/-- Claim C3: writing a value to a derived cell, synchronously (`set`) or asynchronously (`set_async`), fails with InvalidOperation; the guard fires before any mutation, so the failed call leaves the stored state unchanged (the error carries no new world — the caller keeps the old one). -/
theorem claim_C3_write_derived_invalid (fuel : Nat) (w : World) (i : Nat)
    (c : Quark) (v : Int) (hf : findCell w i = some c)
    (hg : c.getter.isSome = true) :
    setQ fuel w i v = .error .invalidOperation ∧
    setAsyncQ fuel w i v = .error .invalidOperation := by
  constructor <;> simp [setQ, setAsyncQ, hf, hg]

/-- Witness for claim C3: writing 5 to the derived cell of `derWorld` fails both ways. -/
theorem claim_C3_write_derived_invalid_witness :
    setQ 9 (derWorld 2) 2 5 = .error .invalidOperation ∧
    setAsyncQ 9 (derWorld 2) 2 5 = .error .invalidOperation :=
  claim_C3_write_derived_invalid 9 (derWorld 2) 2
    ⟨2, some (.mul (.get 1) (.const 2)), [1], 4, [], none⟩ 5
    (by decide) (by decide)

/-- Claim C4: reading a derived cell whose derivation function raises on the current dependency values fails with ComputeError, propagated to the caller of read — the derivation error is not swallowed. -/
theorem claim_C4_compute_error_propagates (fuel : Nat) (w : World) (i : Nat)
    (c : Quark) (g : GExpr) (hf : findCell w i = some c)
    (hg : c.getter = some g) (he : evalG fuel w g = .error .computeError) :
    readQ fuel w i = .error .computeError := by
  simp [readQ, hf, hg, he]

/-- Witness for claim C4: after A is set to 0, reading D = 1 / A fails with ComputeError. -/
theorem claim_C4_compute_error_propagates_witness :
    readQ 9 divWorldAfter 2 = .error .computeError :=
  claim_C4_compute_error_propagates 9 divWorldAfter 2
    ⟨2, some (.div (.const 1) (.get 1)), [1], 1, [], none⟩
    (.div (.const 1) (.get 1)) (by decide) (by decide) (by decide)

/-- Claim C5: a raising subscriber never prevents the remaining subscribers from being invoked, nor the write from succeeding: for any cell whose subscribers are pre ++ (bad :: post) with bad raising, a synchronous write of v returns normally and every non-raising user subscriber in pre or post is invoked observing v. -/
theorem claim_C5_raising_subscriber_isolated (fuel : Nat) (w : World)
    (i : Nat) (c : Quark) (v : Int) (pre post : List CB) (b : Nat)
    (hf : findCell w i = some c) (hg : c.getter = none)
    (hcb : c.callbacks = pre ++ (CB.user b true :: post))
    (hlen : c.callbacks.length ≤ fuel) :
    ∃ w', setQ fuel w i v = .ok w' ∧
      ∀ uid, (CB.user uid false ∈ pre ∨ CB.user uid false ∈ post) →
        Event.invoked uid v ∈ w'.log := by
  have hgs : c.getter.isSome = false := by rw [hg]; rfl
  have hset : setQ fuel w i v =
      .ok (notifySync fuel (updateCell w i fun q => { q with val := v }) i) := by
    simp [setQ, hf, hgs]
  refine ⟨_, hset, ?_⟩
  intro uid hmem
  have hf2 : findCell (updateCell w i fun q => { q with val := v }) i =
      some { c with val := v } :=
    findCell_update w i _ c (fun q => rfl) hf
  have hcbs : callbacksOf (updateCell w i fun q => { q with val := v }) i =
      c.callbacks := by
    simp [callbacksOf, hf2]
  rw [notifySync, hcbs]
  have hmem2 : CB.user uid false ∈ c.callbacks := by
    rw [hcb]
    rcases hmem with h | h
    · exact List.mem_append_left _ h
    · exact List.mem_append_right _ (List.mem_cons_of_mem _ h)
  exact notifyGo_mem c.callbacks fuel _ i { c with val := v } uid hf2 hg hlen hmem2

/-- Witness for claim C5: subscribers good1, bad, good2; after write(5) both good1 and good2 observe 5 and the write succeeds. -/
theorem claim_C5_raising_subscriber_isolated_witness :
    ∃ w', setQ 4 threeSubWorld 1 5 = .ok w' ∧
      ∀ uid, (CB.user uid false ∈ [CB.user 1 false] ∨
              CB.user uid false ∈ [CB.user 3 false]) →
        Event.invoked uid 5 ∈ w'.log :=
  claim_C5_raising_subscriber_isolated 4 threeSubWorld 1
    ⟨1, none, [], 0, [.user 1 false, .user 2 true, .user 3 false], none⟩ 5
    [.user 1 false] [.user 3 false] 2 (by decide) (by decide) (by decide)
    (by decide)

/-- Counterexample to claim C6 as stated: a callable derivation that raises, given a non-empty dependency list, does not construct successfully — `Quark.__init__` computes the initial value eagerly and the error propagates out of the constructor. -/
theorem claim_C6_counterexample :
    mkDerived 9 (srcWorld 2) .raiseErr [1] none = .error .computeError := rfl

/-- Claim C6, amended: constructing a derived cell with an empty or absent dependency list fails with ConfigurationError; with at least one dependency, construction succeeds provided the derivation function evaluates without raising against the current dependency values (otherwise the constructor propagates that error). -/
theorem claim_C6_construction_amended (fuel : Nat) (w : World) (g : GExpr)
    (deps : List Nat) (eh : Option EH) :
    (deps = [] → mkDerived fuel w g deps eh = .error .configurationError) ∧
    (∀ v0, deps ≠ [] → evalG fuel w g = .ok v0 →
      ∃ p, mkDerived fuel w g deps eh = .ok p) := by
  constructor
  · intro h; subst h; rfl
  · intro v0 hne he
    have hemp : deps.isEmpty = false := by
      cases deps with
      | nil => exact absurd rfl hne
      | cons a t => rfl
    simp only [mkDerived, hemp, Bool.false_eq_true, if_false, he]
    exact ⟨_, rfl⟩

/-- Witness for the amended claim C6: empty deps fail with ConfigurationError; D = A*2 over one dependency constructs successfully. -/
theorem claim_C6_construction_amended_witness :
    mkDerived 9 emptyWorld (.const 1) [] none = .error .configurationError ∧
    ∃ p, mkDerived 9 (srcWorld 2) (.mul (.get 1) (.const 2)) [1] none = .ok p :=
  ⟨(claim_C6_construction_amended 9 emptyWorld (.const 1) [] none).1 rfl,
   (claim_C6_construction_amended 9 (srcWorld 2)
      (.mul (.get 1) (.const 2)) [1] none).2 4 (by decide) (by decide)⟩

/-- Claim C7: constructing the configuration with a worker count below 1 or above 32 fails with ConfigurationError, raised at construction time; every worker count within 1..32 is accepted. -/
theorem claim_C7_worker_count_validation (d a : Bool) (mw : Int) :
    (mw < 1 ∨ 32 < mw →
      mkStateQuarkConfig d mw a = .error .configurationError) ∧
    (1 ≤ mw → mw ≤ 32 → mkStateQuarkConfig d mw a = .ok ⟨d, mw, a⟩) := by
  constructor
  · rintro (h | h)
    · rw [mkStateQuarkConfig, if_pos h]
    · rw [mkStateQuarkConfig, if_neg (by omega), if_pos (by omega)]
  · intro h1 h2
    rw [mkStateQuarkConfig, if_neg (by omega), if_neg (by omega)]

/-- Witness for claim C7 at worker counts 0, 33 (rejected) and 4 (accepted). -/
theorem claim_C7_worker_count_validation_witness :
    mkStateQuarkConfig false 0 true = .error .configurationError ∧
    mkStateQuarkConfig false 33 true = .error .configurationError ∧
    mkStateQuarkConfig false 4 true = .ok ⟨false, 4, true⟩ :=
  ⟨(claim_C7_worker_count_validation false true 0).1 (Or.inl (by decide)),
   (claim_C7_worker_count_validation false true 33).1 (Or.inr (by decide)),
   (claim_C7_worker_count_validation false true 4).2 (by decide) (by decide)⟩

-- claims batch 2 ------------------------------------------------------------

/-- Claim C8: subscribing a callback never invokes any callback as part of the subscribe operation (the log is unchanged — no replay of the current value), and a write notifies unconditionally: writing the current value back still invokes each subscriber exactly once with that value. -/
theorem claim_C8_no_replay_unconditional_notify (fuel : Nat) (w : World)
    (i : Nat) (cb : CB) (c : Quark) (uids : List Nat)
    (hf : findCell w i = some c) (hg : c.getter = none)
    (hcb : c.callbacks = uids.map fun u => CB.user u false)
    (hlen : uids.length ≤ fuel) :
    (subscribeQ w i cb).log = w.log ∧
    ∃ w', setQ fuel w i c.val = .ok w' ∧
      w'.log = w.log ++ (uids.map fun u => Event.invoked u c.val) := by
  refine ⟨rfl, ?_⟩
  have hgs : c.getter.isSome = false := by rw [hg]; rfl
  have hset : setQ fuel w i c.val =
      .ok (notifySync fuel
        (updateCell w i fun q => { q with val := c.val }) i) := by
    simp [setQ, hf, hgs]
  refine ⟨_, hset, ?_⟩
  have hf2 : findCell (updateCell w i fun q => { q with val := c.val }) i =
      some { c with val := c.val } :=
    findCell_update w i _ c (fun q => rfl) hf
  have hcbs : callbacksOf (updateCell w i fun q => { q with val := c.val }) i =
      c.callbacks := by
    simp [callbacksOf, hf2]
  rw [notifySync, hcbs, hcb,
    notifyGo_good uids fuel _ i { c with val := c.val } hf2 hg hlen]
  rfl

/-- Witness for claim C8: subscribing to `oneSubWorld` logs nothing; rewriting the unchanged value 5 invokes the subscriber once. -/
theorem claim_C8_no_replay_unconditional_notify_witness :
    (subscribeQ oneSubWorld 1 (.user 11 false)).log = oneSubWorld.log ∧
    ∃ w', setQ 3 oneSubWorld 1 5 = .ok w' ∧
      w'.log = oneSubWorld.log ++ [Event.invoked 9 5] :=
  claim_C8_no_replay_unconditional_notify 3 oneSubWorld 1 (.user 11 false)
    ⟨1, none, [], 5, [.user 9 false], none⟩ [9]
    (by decide) (by decide) (by decide) (by decide)

/-- Claim C9: subscribing the same callback twice leaves the subscriber list as if it had been subscribed once, so a subsequent write invokes it exactly once — not twice; and unsubscribing a callback that is not subscribed is a raise-free no-op leaving the world unchanged. -/
theorem claim_C9_idempotent_subscribe_noop_unsubscribe (w : World) (i u : Nat)
    (c : Quark) (v : Int) (cb : CB)
    (hf : findCell w i = some c) (hg : c.getter = none)
    (hcb : c.callbacks = [])
    (habs : ∀ c' ∈ w.cells, c'.id = i → cb ∉ c'.callbacks) :
    subscribeQ (subscribeQ w i (CB.user u false)) i (CB.user u false) =
      subscribeQ w i (CB.user u false) ∧
    (∃ w', setQ 2 (subscribeQ (subscribeQ w i (CB.user u false)) i
        (CB.user u false)) i v = .ok w' ∧
      w'.log = w.log ++ [Event.invoked u v]) ∧
    unsubscribeQ w i cb = w := by
  refine ⟨subscribeQ_idem w i _, ?_, ?_⟩
  · rw [subscribeQ_idem w i _]
    have hf1 : findCell (subscribeQ w i (CB.user u false)) i =
        some { c with callbacks := [CB.user u false] } := by
      rw [subscribeQ]
      rw [findCell_update w i _ c
        (fun q => by by_cases h : CB.user u false ∈ q.callbacks <;> simp [h]) hf]
      simp [hcb]
    have hset : setQ 2 (subscribeQ w i (CB.user u false)) i v =
        .ok (notifySync 2
          (updateCell (subscribeQ w i (CB.user u false)) i
            fun q => { q with val := v }) i) := by
      have hgs : ({ c with callbacks := [CB.user u false] } : Quark).getter.isSome
          = false := by rw [show ({ c with callbacks := [CB.user u false] } :
            Quark).getter = c.getter from rfl, hg]; rfl
      simp [setQ, hf1, hgs]
    refine ⟨_, hset, ?_⟩
    have hf2 : findCell (updateCell (subscribeQ w i (CB.user u false)) i
        fun q => { q with val := v }) i =
        some { c with callbacks := [CB.user u false], val := v } :=
      findCell_update (subscribeQ w i (CB.user u false)) i
        (fun q => { q with val := v })
        { c with callbacks := [CB.user u false] } (fun q => rfl) hf1
    have hcbs : callbacksOf (updateCell (subscribeQ w i (CB.user u false)) i
        fun q => { q with val := v }) i = [CB.user u false] := by
      simp [callbacksOf, hf2]
    rw [notifySync, hcbs,
      show [CB.user u false] = [u].map (fun x => CB.user x false) from rfl,
      notifyGo_good [u] 2
        (updateCell (subscribeQ w i (CB.user u false)) i
          fun q => { q with val := v }) i
        { c with callbacks := [CB.user u false], val := v }
        hf2 hg (by norm_num)]
    simp [subscribeQ, updateCell]
  · apply updateCell_fix
    intro c' hc' hid
    have hnm := habs c' hc' hid
    simp [List.erase_of_not_mem hnm]

/-- Witness for claim C9 at a concrete source cell. -/
theorem claim_C9_idempotent_subscribe_noop_unsubscribe_witness :
    subscribeQ (subscribeQ (srcWorld 5) 1 (CB.user 9 false)) 1
        (CB.user 9 false) = subscribeQ (srcWorld 5) 1 (CB.user 9 false) ∧
    (∃ w', setQ 2 (subscribeQ (subscribeQ (srcWorld 5) 1 (CB.user 9 false)) 1
        (CB.user 9 false)) 1 7 = .ok w' ∧
      w'.log = (srcWorld 5).log ++ [Event.invoked 9 7]) ∧
    unsubscribeQ (srcWorld 5) 1 (CB.user 7 false) = srcWorld 5 :=
  claim_C9_idempotent_subscribe_noop_unsubscribe (srcWorld 5) 1 9
    ⟨1, none, [], 5, [], none⟩ 7 (CB.user 7 false)
    (by decide) (by decide) (by decide) (by decide)

/-- Claim C10: when a subscriber callback raises during notification and the installed per-cell error handler itself raises, both exceptions are caught inside `_safe_call`: the write returns normally and notification continues to the remaining subscribers — the log records the callback failure, the handler failure, and the subsequent invocation. -/
theorem claim_C10_handler_error_contained (fuel : Nat) (w : World) (i : Nat)
    (c : Quark) (v : Int) (b g : Nat)
    (hf : findCell w i = some c) (hg : c.getter = none)
    (heh : c.errorHandler = some ⟨true⟩)
    (hcb : c.callbacks = [CB.user b true, CB.user g false])
    (hfuel : 2 ≤ fuel) :
    ∃ w', setQ fuel w i v = .ok w' ∧
      w'.log = w.log ++
        [Event.cbRaised b, Event.handlerRaised i b, Event.invoked g v] := by
  obtain ⟨f, rfl⟩ : ∃ f, fuel = f + 2 := ⟨fuel - 2, by omega⟩
  have hgs : c.getter.isSome = false := by rw [hg]; rfl
  have hset : setQ (f + 2) w i v =
      .ok (notifySync (f + 2)
        (updateCell w i fun q => { q with val := v }) i) := by
    simp [setQ, hf, hgs]
  refine ⟨_, hset, ?_⟩
  have hf2 : findCell (updateCell w i fun q => { q with val := v }) i =
      some { c with val := v } :=
    findCell_update w i (fun q => { q with val := v }) c (fun q => rfl) hf
  have hcbs : callbacksOf (updateCell w i fun q => { q with val := v }) i =
      [CB.user b true, CB.user g false] := by
    simp [callbacksOf, hf2, hcb]
  rw [notifySync, hcbs]
  have hr : readQ (f + 2) (updateCell w i fun q => { q with val := v }) i =
      .ok v :=
    readQ_source (f + 2) _ i { c with val := v } hf2 hg
  have hsc1 : safeCallUser (f + 2)
      (updateCell w i fun q => { q with val := v }) i b true =
      pushLog (pushLog (updateCell w i fun q => { q with val := v })
        (.cbRaised b)) (.handlerRaised i b) := by
    simp [safeCallUser, hr, afterRaise, errorHandlerOf, hf2, heh]
  have hstep1 : notifyGo (f + 2) (updateCell w i fun q => { q with val := v })
      i [CB.user b true, CB.user g false] =
      notifyGo (f + 1) (safeCallUser (f + 2)
        (updateCell w i fun q => { q with val := v }) i b true) i
        [CB.user g false] := rfl
  rw [hstep1, hsc1]
  have hf3 : findCell (pushLog (pushLog
      (updateCell w i fun q => { q with val := v }) (.cbRaised b))
      (.handlerRaised i b)) i = some { c with val := v } := hf2
  have hr3 : readQ (f + 1) (pushLog (pushLog
      (updateCell w i fun q => { q with val := v }) (.cbRaised b))
      (.handlerRaised i b)) i = .ok v :=
    readQ_source (f + 1) _ i { c with val := v } hf3 hg
  have hsc2 : safeCallUser (f + 1) (pushLog (pushLog
      (updateCell w i fun q => { q with val := v }) (.cbRaised b))
      (.handlerRaised i b)) i g false =
      pushLog (pushLog (pushLog
        (updateCell w i fun q => { q with val := v }) (.cbRaised b))
        (.handlerRaised i b)) (.invoked g v) := by
    simp [safeCallUser, hr3]
  have hstep2 : notifyGo (f + 1) (pushLog (pushLog
      (updateCell w i fun q => { q with val := v }) (.cbRaised b))
      (.handlerRaised i b)) i [CB.user g false] =
      notifyGo f (safeCallUser (f + 1) (pushLog (pushLog
        (updateCell w i fun q => { q with val := v }) (.cbRaised b))
        (.handlerRaised i b)) i g false) i [] := rfl
  rw [hstep2, hsc2]
  have hstep3 : ∀ (w0 : World), notifyGo f w0 i [] = w0 := by
    intro w0; cases f <;> rfl
  rw [hstep3]
  simp [pushLog, updateCell]

/-- Witness for claim C10 at a concrete cell with a raising handler. -/
theorem claim_C10_handler_error_contained_witness :
    ∃ w', setQ 2 handlerWorld 1 9 = .ok w' ∧
      w'.log = handlerWorld.log ++
        [Event.cbRaised 4, Event.handlerRaised 1 4, Event.invoked 5 9] :=
  claim_C10_handler_error_contained 2 handlerWorld 1
    ⟨1, none, [], 0, [.user 4 true, .user 5 false], some ⟨true⟩⟩ 9 4 5
    (by decide) (by decide) (by decide) (by decide) (by decide)

end StateQuark
